import Mathlib

/-!
# Verification of the Realmwright utility scripts

Shallow embedding of `src/project_stats.py` and `src/largest_files.py`.

Modelling conventions:
* Python text is modelled over Lean `Char`/`String`; the regex character
  classes `\w` and `\s` are modelled at their ASCII core (the analysed
  claims only involve ASCII text).
* Machine-level effects (opening a file, an I/O error in the middle of the
  line iteration, an external command's exit status) are modelled by
  explicit data: `FileContent` describes what reading a file yields, and
  `CmdResult` describes the outcome of one shell command.
* Python's unbounded non-negative counters are `Nat`; the float divisions
  of the reporter are modelled over `ℚ` (the claims under study only
  concern the exact value `0`).
-/

namespace Realmwright

/-! ## Character classes (`\w`, `\s` of `re`, ASCII core) -/

/-- ASCII core of the regex class `\w`: letters, digits, underscore. -/
def isWordChar (c : Char) : Bool :=
  c.isAlphanum || c = '_'

/-- ASCII core of the regex class `\s`: space, tab, newline, carriage
return, vertical tab, form feed. -/
def isSpaceChar (c : Char) : Bool :=
  c = ' ' || c = '\t' || c = '\n' || c = '\r' || c = '\x0b' || c = '\x0c'

/-! ## `re.findall(r"\w+", line)` : maximal runs of word characters -/

/-- Embedding of `token_pattern.findall(line)` with `token_pattern = \w+`:
scan the line, emitting each maximal run of word characters. -/
def findTokens (cs : List Char) : List (List Char) :=
  match cs with
  | [] => []
  | c :: cs' =>
    if isWordChar c then
      (c :: cs'.takeWhile isWordChar) :: findTokens (cs'.dropWhile isWordChar)
    else
      findTokens cs'
termination_by cs.length
decreasing_by
  · exact Nat.lt_succ_of_le (List.Sublist.length_le (List.dropWhile_sublist _))
  · exact Nat.lt_succ_self _

/-! ## The function / class regexes of `count_file_stats`

`func_pattern` (verbose regex, searched with `^` anchors, hence matched at
the start of the line):

    ^\s*function\s+(?P<funcname>\w+)\s*\(
  | ^\s*(?:export\s+)?(?:const|let|var)\s+(?P<varname>\w+)\s*
        (?::[^={]+)?=\s*\(.*\)\s*=>

`class_pattern`:

    ^\s*(?:export\s+)?class\s+(?P<classname>\w+)

Each piece of the pattern is deterministic after maximal munch (adjacent
classes are disjoint), except the trailing `\(.*\)\s*=>` which is an
existential search for a closing parenthesis; the embedding below mirrors
this structure literally. -/

/-- Match a literal character sequence, returning the rest of the input. -/
def dropLit : List Char → List Char → Option (List Char)
  | [], cs => some cs
  | _ :: _, [] => none
  | p :: ps, c :: cs => if c = p then dropLit ps cs else none

/-- `\s*=>` : skip whitespace, then require the literal arrow. -/
def arrowAfterParen (cs : List Char) : Bool :=
  match cs.dropWhile isSpaceChar with
  | '=' :: '>' :: _ => true
  | _ => false

/-- `.*\)\s*=>` : some closing parenthesis, not preceded by a newline on
the way (`.` does not match `\n`), is followed by `\s*=>`. -/
def arrowTail : List Char → Bool
  | [] => false
  | c :: cs =>
    if c = ')' && arrowAfterParen cs then true
    else if c = '\n' then false
    else arrowTail cs

/-- `(?:export\s+)?` : an optional `export` qualifier followed by at least
one whitespace character; if absent (or not followed by whitespace), the
input is left unchanged. -/
def dropExportQualifier (cs : List Char) : List Char :=
  match dropLit "export".toList cs with
  | some (c :: rest) => if isSpaceChar c then rest.dropWhile isSpaceChar else cs
  | _ => cs

/-- `(?:const|let|var)` : one of the three declaration keywords. -/
def dropDeclKeyword (cs : List Char) : Option (List Char) :=
  match dropLit "const".toList cs with
  | some r => some r
  | none =>
    match dropLit "let".toList cs with
    | some r => some r
    | none => dropLit "var".toList cs

/-- `\s+(\w+)` : at least one whitespace character, then a captured
identifier (a nonempty run of word characters). Returns the identifier and
the rest of the input. -/
def captureName (cs : List Char) : Option (List Char × List Char) :=
  match cs with
  | [] => none
  | c :: rest =>
    if isSpaceChar c then
      let r := rest.dropWhile isSpaceChar
      let name := r.takeWhile isWordChar
      if name = [] then none else some (name, r.dropWhile isWordChar)
    else none

/-- First alternative of `func_pattern` after the leading `\s*`:
`function\s+(?P<funcname>\w+)\s*\(`. -/
def matchFuncDecl (cs : List Char) : Option (List Char) :=
  match dropLit "function".toList cs with
  | none => none
  | some r1 =>
    match captureName r1 with
    | none => none
    | some (name, r2) =>
      match r2.dropWhile isSpaceChar with
      | '(' :: _ => some name
      | _ => none

/-- Second alternative of `func_pattern` after the leading `\s*`:
`(?:export\s+)?(?:const|let|var)\s+(?P<varname>\w+)\s*(?::[^={]+)?=\s*\(.*\)\s*=>`. -/
def matchArrowDecl (cs : List Char) : Option (List Char) :=
  match dropDeclKeyword (dropExportQualifier cs) with
  | none => none
  | some r1 =>
    match captureName r1 with
    | none => none
    | some (name, r2) =>
      let r3 := r2.dropWhile isSpaceChar
      -- `(?::[^={]+)?=` : optional type annotation, then the equals sign
      let afterEq : Option (List Char) :=
        match r3 with
        | ':' :: r4 =>
          match r4.dropWhile (fun c => !(c = '=' || c = '\x7b')) with
          | '=' :: r5 => if r4.takeWhile (fun c => !(c = '=' || c = '\x7b')) = [] then none else some r5
          | _ => none
        | '=' :: r4 => some r4
        | _ => none
      match afterEq with
      | none => none
      | some r6 =>
        match r6.dropWhile isSpaceChar with
        | '(' :: r7 => if arrowTail r7 then some name else none
        | _ => none

/-- Embedding of `func_pattern.search(line)`, returning the captured
identifier (`funcname` from the first alternative, else `varname` from the
second), as selected by `func_match.group("funcname") or
func_match.group("varname")`. -/
def funcSearch (line : String) : Option String :=
  let cs := line.toList.dropWhile isSpaceChar
  match matchFuncDecl cs with
  | some n => some (String.mk n)
  | none => (matchArrowDecl cs).map String.mk

/-- Embedding of `class_pattern.search(line)`, returning the captured
`classname`. -/
def classSearch (line : String) : Option String :=
  let cs := line.toList.dropWhile isSpaceChar
  match dropLit "class".toList (dropExportQualifier cs) with
  | none => none
  | some r1 => (captureName r1).map (fun p => String.mk p.1)

/-- `name[0].isupper()` guarded by `if name` (Python's truthiness on the
possibly empty string). -/
def isUpperFirst (n : String) : Bool :=
  match n.toList with
  | [] => false
  | c :: _ => c.isUpper

/-! ## Per-file statistics (`count_file_stats`) -/

/-- The per-file statistics dictionary: the six keys initialised at the
top of `count_file_stats`, each a non-negative counter. -/
structure FileStats where
  lines : Nat
  tokens : Nat
  letters : Nat
  functions : Nat
  classes : Nat
  components : Nat
deriving DecidableEq, Repr

/-- The dictionary `stats` as initialised in `count_file_stats`. -/
def zeroStats : FileStats := ⟨0, 0, 0, 0, 0, 0⟩

/-- The per-file dictionary viewed as a Python dict: key/value pairs in
insertion order. -/
def FileStats.toPairs (s : FileStats) : List (String × Nat) :=
  [("lines", s.lines), ("tokens", s.tokens), ("letters", s.letters),
   ("functions", s.functions), ("classes", s.classes), ("components", s.components)]

/-- The body of the `for line in f` loop of `count_file_stats`: one line's
updates to the running statistics. -/
def processLine (s : FileStats) (line : String) : FileStats :=
  let toks := findTokens line.toList
  let s₁ : FileStats :=
    { s with
      lines := s.lines + 1
      tokens := s.tokens + toks.length
      letters := s.letters + (toks.map List.length).sum }
  let s₂ : FileStats :=
    match funcSearch line with
    | some name =>
      { s₁ with
        functions := s₁.functions + 1
        components := s₁.components + (if isUpperFirst name then 1 else 0) }
    | none => s₁
  match classSearch line with
  | some name =>
    { s₂ with
      classes := s₂.classes + 1
      components := s₂.components + (if isUpperFirst name then 1 else 0) }
  | none => s₂

/-- Contribution of one line to the `functions` counter: one exactly when
`func_pattern` matched. -/
def funcInc (line : String) : Nat :=
  if (funcSearch line).isSome then 1 else 0

/-- Contribution of one line to the `classes` counter: one exactly when
`class_pattern` matched. -/
def classInc (line : String) : Nat :=
  if (classSearch line).isSome then 1 else 0

/-- Component contribution of one pattern-match result: one exactly when
a name was captured and its first character is uppercase. -/
def matchCompInc : Option String → Nat
  | some n => if isUpperFirst n then 1 else 0
  | none => 0

/-- What reading one file yields. `open` may fail outright
(`openFailure`); otherwise the iteration yields a list of decoded lines,
and `midScanError` records whether an I/O error interrupted the iteration
after those lines (both cases land in the `except` clause of
`count_file_stats`). -/
inductive FileContent where
  | openFailure
  | readable (ls : List String) (midScanError : Bool)
deriving DecidableEq, Repr

/-- Embedding of `count_file_stats`: the returned statistics, paired with
whether the diagnostic `print` of the `except` clause ran. The `try` block
accumulates over the lines actually yielded; on any caught exception the
accumulated `stats` dictionary is returned as is. -/
def count_file_stats : FileContent → FileStats × Bool
  | .openFailure => (zeroStats, true)
  | .readable ls midScanError => (ls.foldl processLine zeroStats, midScanError)

/-! ## Configuration sets and `is_code_file` -/

/-- `INCLUDE_EXTS` of `project_stats.py`. -/
def INCLUDE_EXTS : List String := [".tsx", ".ts", ".css", ".py"]

/-- `EXCLUDE_DIRS` of `project_stats.py`. -/
def EXCLUDE_DIRS : List String :=
  [".venv", "node_modules", "__pycache__", ".git", "dist", "build"]

/-- `EXCLUDE_FILES` of `project_stats.py`. -/
def EXCLUDE_FILES : List String :=
  ["pyproject.toml", "__init__.py", "index.tsx", "index.ts"]

/-- `os.path.splitext(name)[1]` on a basename: the suffix starting at the
last dot, except that leading dots of the basename never start an
extension. -/
def extFrom : List Char → Option (List Char)
  | [] => none
  | c :: cs =>
    match extFrom cs with
    | some e => some e
    | none => if c = '.' then some (c :: cs) else none

/-- `os.path.splitext(name)[1]` for a bare filename. -/
def splitext_ext (name : String) : String :=
  match extFrom (name.toList.dropWhile (· = '.')) with
  | some e => String.mk e
  | none => ""

/-- `is_code_file` applied to a bare filename (as `walk_project` does;
`os.path.basename` of a bare filename is itself). -/
def is_code_file (name : String) : Bool :=
  INCLUDE_EXTS.contains (splitext_ext name) && !EXCLUDE_FILES.contains name

/-! ## The filesystem model and `walk_project` -/

/-- A directory tree entry: a file with its readable content, or a named
subdirectory. -/
inductive FSEntry where
  | file (name : String) (content : FileContent)
  | dir (name : String) (entries : List FSEntry)
deriving Repr

/-- A file reached by the walk: the chain of directory names below the
walk root, the filename, and the content behind it. -/
structure VisitedFile where
  dirs : List String
  name : String
  content : FileContent
deriving DecidableEq, Repr

/-- The traversal of `os.walk(".")` with the in-place pruning
`dirs[:] = [d for d in dirs if d not in EXCLUDE_DIRS]` and the per-file
filter `if is_code_file(file)`: the qualifying files, with excluded
directories never descended into. (The exact interleaving order of
`os.walk` is not contractual; the model emits each directory's qualifying
entries in tree order.) -/
def collectEntries (anc : List String) : List FSEntry → List VisitedFile
  | [] => []
  | .file n c :: es =>
    (if is_code_file n then [⟨anc, n, c⟩] else []) ++ collectEntries anc es
  | .dir d sub :: es =>
    (if EXCLUDE_DIRS.contains d then [] else collectEntries (anc ++ [d]) sub)
      ++ collectEntries anc es
termination_by es => sizeOf es
decreasing_by
  all_goals simp
  all_goals omega

/-- The `Counter` accumulated by `walk_project`, together with the
`files` entry assigned after the walk. -/
structure AggregateStats where
  files : Nat
  lines : Nat
  tokens : Nat
  letters : Nat
  functions : Nat
  classes : Nat
  components : Nat
deriving DecidableEq, Repr

/-- `Counter()` before any update (with the not-yet-assigned `files`
entry at its implicit zero). -/
def initAgg : AggregateStats := ⟨0, 0, 0, 0, 0, 0, 0⟩

/-- `total_stats.update(file_stats)`: add each of the six per-file
metrics into the running totals. -/
def counterUpdate (a : AggregateStats) (s : FileStats) : AggregateStats :=
  { a with
    lines := a.lines + s.lines
    tokens := a.tokens + s.tokens
    letters := a.letters + s.letters
    functions := a.functions + s.functions
    classes := a.classes + s.classes
    components := a.components + s.components }

/-- Embedding of `walk_project` over a model of the tree below the
current directory: analyse every qualifying file, merge the statistics,
and finally set `files` to the number of qualifying files visited
(`file_count` is incremented once per qualifying file, whether or not its
analysis succeeded). -/
def walk_project (roots : List FSEntry) : AggregateStats :=
  let visited := collectEntries [] roots
  let total := visited.foldl
    (fun acc v => counterUpdate acc (count_file_stats v.content).1) initAgg
  { total with files := visited.length }

/-! ## `get_git_info` -/

/-- Outcome of one `subprocess.check_output(cmd, shell=True, text=True)`
invocation: captured text on exit status zero, or a
`CalledProcessError`. -/
inductive CmdResult where
  | success (output : String)
  | failure
deriving DecidableEq, Repr

/-- Python's `str.strip()` (ASCII whitespace core). -/
def pyStrip (s : String) : String :=
  String.mk (((s.toList.dropWhile isSpaceChar).reverse.dropWhile isSpaceChar).reverse)

/-- The inner `run_git` helper: trimmed output on success, `None` when
the command exits non-zero. -/
def run_git : CmdResult → Option String
  | .success out => some (pyStrip out)
  | .failure => none

/-- The outcomes of the six external version-control queries, in the
order they are issued by `get_git_info`. -/
structure GitEnv where
  repoNameQuery : CmdResult
  totalCommitsQuery : CmdResult
  latestCommitDateQuery : CmdResult
  latestCommitAuthorQuery : CmdResult
  currentBranchQuery : CmdResult
  topContributorQuery : CmdResult
deriving DecidableEq, Repr

/-- Embedding of `get_git_info`: the dictionary of the six metadata keys,
each bound to its own query's `run_git` result. -/
def get_git_info (env : GitEnv) : List (String × Option String) :=
  [("repo_name", run_git env.repoNameQuery),
   ("total_commits", run_git env.totalCommitsQuery),
   ("latest_commit_date", run_git env.latestCommitDateQuery),
   ("latest_commit_author", run_git env.latestCommitAuthorQuery),
   ("current_branch", run_git env.currentBranchQuery),
   ("top_contributor", run_git env.topContributorQuery)]

/-! ## The derived ratios of `print_report` -/

/-- `stats["tokens"] / stats["lines"] if stats["lines"] else 0`
(exact-arithmetic model of the float division). -/
def avg_tokens_per_line (stats : AggregateStats) : ℚ :=
  if stats.lines ≠ 0 then (stats.tokens : ℚ) / (stats.lines : ℚ) else 0

/-- `stats["letters"] / stats["tokens"] if stats["tokens"] else 0`. -/
def avg_letters_per_token (stats : AggregateStats) : ℚ :=
  if stats.tokens ≠ 0 then (stats.letters : ℚ) / (stats.tokens : ℚ) else 0

/-! ## `get_largest_files` (`largest_files.py`) -/

/-- `f.endswith(extensions)` for a tuple of extensions. -/
def endswithAny (f : String) (exts : List String) : Bool :=
  exts.any (fun e => e.toList.isSuffixOf f.toList)

/-- The collection loop of `get_largest_files`: candidate files paired
with the result of `os.path.getsize` (`none` models the `OSError` branch,
which silently skips the file). -/
def collect_file_sizes (cands : List (String × Option Nat)) (exts : List String) :
    List (String × Nat) :=
  cands.filterMap (fun c =>
    if endswithAny c.1 exts then c.2.map (fun sz => (c.1, sz)) else none)

/-- `file_sizes.sort(key=lambda x: x[1], reverse=True)`: Python's stable
sort by size, descending (equal keys keep their original order). -/
def sortBySizeDesc (l : List (String × Nat)) : List (String × Nat) :=
  l.mergeSort (fun a b => decide (b.2 ≤ a.2))

/-- Embedding of the ranking phase of `get_largest_files`: sort the
collected `(path, size)` list by size descending (stably) and return the
first `n` entries. -/
def get_largest_files (file_sizes : List (String × Nat)) (n : Nat) :
    List (String × Nat) :=
  (sortBySizeDesc file_sizes).take n

/-! ## Specification-side characterisation of token extraction -/

/-- `MaximalRuns cs toks` : `toks` is the list of maximal runs of word
characters of `cs`, in order. Each run is a nonempty all-word-character
block that cannot be extended: a skipped character is never a word
character, and the input after a run never starts with one. -/
inductive MaximalRuns : List Char → List (List Char) → Prop where
  | nil : MaximalRuns [] []
  | skip {c : Char} {cs : List Char} {toks : List (List Char)} :
      ¬ isWordChar c → MaximalRuns cs toks → MaximalRuns (c :: cs) toks
  | run {t cs : List Char} {toks : List (List Char)} :
      t ≠ [] → (∀ c ∈ t, isWordChar c) →
      (∀ c cs', cs = c :: cs' → ¬ isWordChar c) →
      MaximalRuns cs toks → MaximalRuns (t ++ cs) (t :: toks)

/-! # Theorems -/

/-- The per-line update of `count_file_stats`, written field by field. -/
theorem processLine_fields (s : FileStats) (line : String) :
    processLine s line =
      { lines := s.lines + 1
        tokens := s.tokens + (findTokens line.toList).length
        letters := s.letters + ((findTokens line.toList).map List.length).sum
        functions := s.functions + funcInc line
        classes := s.classes + classInc line
        components := s.components + matchCompInc (funcSearch line)
          + matchCompInc (classSearch line) } := by
  unfold processLine funcInc classInc
  cases hf : funcSearch line <;> cases hc : classSearch line <;>
    simp [matchCompInc, hf, hc]

/-- Claim C2: a function- or class-like match increments `components`
exactly when the captured identifier starts with an uppercase letter; the
two sample lines are classified as stated. -/
theorem component_increment_iff_uppercase :
    (∀ (s : FileStats) (line : String),
        (processLine s line).components =
          s.components + matchCompInc (funcSearch line)
            + matchCompInc (classSearch line)) ∧
    funcSearch "export const Button = (props) => \x7b" = some "Button" ∧
    (processLine zeroStats "export const Button = (props) => \x7b").functions = 1 ∧
    (processLine zeroStats "export const Button = (props) => \x7b").components = 1 ∧
    funcSearch "function helper() \x7b" = some "helper" ∧
    (processLine zeroStats "function helper() \x7b").functions = 1 ∧
    (processLine zeroStats "function helper() \x7b").components = 0 := by
  refine ⟨fun s line => ?_, by decide, by decide, by decide, by decide, by decide, by decide⟩
  rw [processLine_fields]

/-- The head of `dropWhile p` never satisfies `p`. -/
theorem not_of_dropWhile_cons {p : Char → Bool} :
    ∀ (l : List Char) (c : Char) (cs : List Char),
      l.dropWhile p = c :: cs → ¬ p c := by
  intro l c cs h hc
  have := List.head?_dropWhile_not p l
  rw [h] at this
  simp at this
  rw [this] at hc
  exact Bool.false_ne_true hc

/-- `findTokens` extracts exactly the maximal runs of word characters. -/
theorem maximalRuns_findTokens : ∀ (cs : List Char), MaximalRuns cs (findTokens cs)
  | [] => by rw [findTokens]; exact .nil
  | c :: cs' => by
    rw [findTokens]
    by_cases h : isWordChar c = true
    · simp only [h, if_true]
      have he : c :: cs' = (c :: cs'.takeWhile isWordChar) ++ cs'.dropWhile isWordChar := by
        simp
      rw [he]
      refine MaximalRuns.run (by simp) ?_ ?_
        (maximalRuns_findTokens (cs'.dropWhile isWordChar))
      · intro x hx
        rcases List.mem_cons.1 hx with rfl | hx
        · exact h
        · exact List.mem_takeWhile_imp hx
      · intro x xs hx
        exact not_of_dropWhile_cons cs' x xs hx
    · simp only [h, if_false]
      exact MaximalRuns.skip h (maximalRuns_findTokens cs')
termination_by cs => cs.length
decreasing_by
  · exact Nat.lt_succ_of_le (List.Sublist.length_le (List.dropWhile_sublist _))
  · exact Nat.lt_succ_self _

/-- Claim C6: each line increments `lines` by one, `tokens` by the number
of maximal runs of word characters in the line, and `letters` by the sum
of the lengths of those runs. -/
theorem token_metrics_per_line :
    ∀ (s : FileStats) (line : String),
      (processLine s line).lines = s.lines + 1 ∧
      (processLine s line).tokens = s.tokens + (findTokens line.toList).length ∧
      (processLine s line).letters
        = s.letters + ((findTokens line.toList).map List.length).sum ∧
      MaximalRuns line.toList (findTokens line.toList) := by
  intro s line
  rw [processLine_fields]
  exact ⟨rfl, rfl, rfl, maximalRuns_findTokens _⟩

/-- A match result contributes at most one component. -/
theorem matchCompInc_le (m : Option String) :
    matchCompInc m ≤ (if m.isSome then 1 else 0) := by
  cases m with
  | none => simp [matchCompInc]
  | some n =>
    simp only [matchCompInc, Option.isSome_some, if_true]
    split <;> omega

/-- The per-line component bound propagates through the whole file. -/
theorem foldl_processLine_component_bound :
    ∀ (ls : List String) (s : FileStats),
      s.components ≤ s.functions + s.classes →
      (ls.foldl processLine s).components
        ≤ (ls.foldl processLine s).functions + (ls.foldl processLine s).classes := by
  intro ls
  induction ls with
  | nil => intro s hs; simpa using hs
  | cons line ls ih =>
    intro s hs
    simp only [List.foldl_cons]
    apply ih
    rw [processLine_fields]
    have h1 := matchCompInc_le (funcSearch line)
    have h2 := matchCompInc_le (classSearch line)
    simp only [funcInc, classInc] at *
    split at h1 <;> split at h2 <;> simp_all <;> omega

/-- Claim C9: per line, `functions` and `classes` are each incremented at
most once, `components` only alongside one of them; hence every per-file
result satisfies `components ≤ functions + classes`. -/
theorem component_bound_invariant :
    (∀ (s : FileStats) (line : String),
        (processLine s line).functions = s.functions + funcInc line ∧
        (processLine s line).classes = s.classes + classInc line ∧
        (processLine s line).components =
          s.components + matchCompInc (funcSearch line)
            + matchCompInc (classSearch line) ∧
        funcInc line ≤ 1 ∧ classInc line ≤ 1 ∧
        matchCompInc (funcSearch line) + matchCompInc (classSearch line)
          ≤ funcInc line + classInc line) ∧
    ∀ (content : FileContent),
      (count_file_stats content).1.components
        ≤ (count_file_stats content).1.functions + (count_file_stats content).1.classes := by
  constructor
  · intro s line
    have h1 := matchCompInc_le (funcSearch line)
    have h2 := matchCompInc_le (classSearch line)
    rw [processLine_fields]
    refine ⟨rfl, rfl, rfl, ?_, ?_, ?_⟩
    · simp [funcInc]; split <;> omega
    · simp [classInc]; split <;> omega
    · simp only [funcInc, classInc]
      split at h1 <;> split at h2 <;> simp_all <;> omega
  · intro content
    cases content with
    | openFailure => simp [count_file_stats, zeroStats]
    | readable ls err =>
      exact foldl_processLine_component_bound ls zeroStats (by simp [zeroStats])

/-- Claim C10: the analyzer is total: every input (including one whose
open fails) yields a dictionary with exactly the six metric keys, each a
non-negative integer. -/
theorem analyzer_total_with_six_keys :
    ∀ (content : FileContent),
      (count_file_stats content).1.toPairs.map Prod.fst =
        ["lines", "tokens", "letters", "functions", "classes", "components"] ∧
      ∀ kv ∈ (count_file_stats content).1.toPairs, (0 : ℤ) ≤ (kv.2 : ℤ) := by
  intro content
  refine ⟨by simp [FileStats.toPairs], ?_⟩
  intro kv _
  exact Int.natCast_nonneg kv.2

/-- Witness for C10 at a concrete unreadable input. -/
theorem analyzer_total_with_six_keys_witness :
    (0 : ℤ) ≤ (((("lines", (0 : Nat)) : String × Nat)).2 : ℤ) :=
  (analyzer_total_with_six_keys .openFailure).2 ("lines", 0) (by decide)

/-- Claim C3 counterexample: a file whose read fails after one line was
yielded produces a diagnostic but a non-zero `FileStats`, refuting "every
metric is zero" for mid-scan failures. -/
theorem midscan_failure_not_zero :
    (count_file_stats (.readable ["hi"] true)).2 = true ∧
    (count_file_stats (.readable ["hi"] true)).1.lines = 1 ∧
    ¬ (∀ content : FileContent, (count_file_stats content).2 = true →
        (count_file_stats content).1 = zeroStats) := by
  refine ⟨rfl, by decide, fun h => ?_⟩
  have h1 := h (.readable ["hi"] true) rfl
  have h2 : (count_file_stats (.readable ["hi"] true)).1.lines = 1 := by decide
  rw [h1] at h2
  exact absurd h2 (by decide)

/-- Claim C3 (amended): an open failure yields a diagnostic and a
zero-valued `FileStats`; a failure in the middle of the scan yields a
diagnostic and the statistics of the lines read before the failure
(best-effort partial); the analyzer returns in every case. -/
theorem read_failure_diagnostic_and_partial :
    count_file_stats .openFailure = (zeroStats, true) ∧
    ∀ (ls : List String),
      count_file_stats (.readable ls true) =
        ((count_file_stats (.readable ls false)).1, true) :=
  ⟨rfl, fun _ => rfl⟩

/-- Claim C7: both derived ratios of the reporter substitute zero when
their denominator is zero. -/
theorem report_ratio_zero_guard :
    ∀ (stats : AggregateStats),
      (stats.lines = 0 → avg_tokens_per_line stats = 0) ∧
      (stats.tokens = 0 → avg_letters_per_token stats = 0) := by
  intro stats
  constructor <;> intro h <;>
    simp [avg_tokens_per_line, avg_letters_per_token, h]

/-- Witness for C7 at the empty aggregate. -/
theorem report_ratio_zero_guard_witness :
    avg_tokens_per_line initAgg = 0 ∧ avg_letters_per_token initAgg = 0 :=
  ⟨(report_ratio_zero_guard initAgg).1 rfl, (report_ratio_zero_guard initAgg).2 rfl⟩

/-- Claim C8: each version-control metadata key is bound to the result of
its own query alone — the trimmed output when the command exited zero,
absent when it failed — and all six keys are always present. -/
theorem git_queries_independent :
    ∀ (env : GitEnv),
      (get_git_info env).map Prod.fst =
        ["repo_name", "total_commits", "latest_commit_date",
         "latest_commit_author", "current_branch", "top_contributor"] ∧
      (get_git_info env).lookup "repo_name" = some (run_git env.repoNameQuery) ∧
      (get_git_info env).lookup "total_commits" = some (run_git env.totalCommitsQuery) ∧
      (get_git_info env).lookup "latest_commit_date"
        = some (run_git env.latestCommitDateQuery) ∧
      (get_git_info env).lookup "latest_commit_author"
        = some (run_git env.latestCommitAuthorQuery) ∧
      (get_git_info env).lookup "current_branch"
        = some (run_git env.currentBranchQuery) ∧
      (get_git_info env).lookup "top_contributor"
        = some (run_git env.topContributorQuery) ∧
      (∀ out : String, run_git (.success out) = some (pyStrip out)) ∧
      run_git .failure = none := by
  intro env
  exact ⟨rfl, rfl, rfl, rfl, rfl, rfl, rfl, fun _ => rfl, rfl⟩

/-- Field-wise value of the aggregation fold of `walk_project`. -/
theorem foldl_counterUpdate_fields :
    ∀ (vs : List VisitedFile) (acc : AggregateStats),
      (vs.foldl (fun a v => counterUpdate a (count_file_stats v.content).1) acc).files
        = acc.files ∧
      (vs.foldl (fun a v => counterUpdate a (count_file_stats v.content).1) acc).lines
        = acc.lines + (vs.map (fun v => (count_file_stats v.content).1.lines)).sum ∧
      (vs.foldl (fun a v => counterUpdate a (count_file_stats v.content).1) acc).tokens
        = acc.tokens + (vs.map (fun v => (count_file_stats v.content).1.tokens)).sum ∧
      (vs.foldl (fun a v => counterUpdate a (count_file_stats v.content).1) acc).letters
        = acc.letters + (vs.map (fun v => (count_file_stats v.content).1.letters)).sum ∧
      (vs.foldl (fun a v => counterUpdate a (count_file_stats v.content).1) acc).functions
        = acc.functions + (vs.map (fun v => (count_file_stats v.content).1.functions)).sum ∧
      (vs.foldl (fun a v => counterUpdate a (count_file_stats v.content).1) acc).classes
        = acc.classes + (vs.map (fun v => (count_file_stats v.content).1.classes)).sum ∧
      (vs.foldl (fun a v => counterUpdate a (count_file_stats v.content).1) acc).components
        = acc.components + (vs.map (fun v => (count_file_stats v.content).1.components)).sum := by
  intro vs
  induction vs with
  | nil => intro acc; simp
  | cons v vs ih =>
    intro acc
    obtain ⟨h1, h2, h3, h4, h5, h6, h7⟩ := ih (counterUpdate acc (count_file_stats v.content).1)
    simp only [List.foldl_cons, List.map_cons, List.sum_cons]
    refine ⟨?_, ?_, ?_, ?_, ?_, ?_, ?_⟩
    · rw [h1]; rfl
    · rw [h2]; simp [counterUpdate]; omega
    · rw [h3]; simp [counterUpdate]; omega
    · rw [h4]; simp [counterUpdate]; omega
    · rw [h5]; simp [counterUpdate]; omega
    · rw [h6]; simp [counterUpdate]; omega
    · rw [h7]; simp [counterUpdate]; omega

/-- Claim C1: every aggregate metric is the exact sum of the per-file
values over the visited qualifying files, and `files` counts those files
(whether or not their analysis succeeded). -/
theorem aggregate_metrics_are_sums :
    ∀ (roots : List FSEntry),
      (walk_project roots).files = (collectEntries [] roots).length ∧
      (walk_project roots).lines =
        ((collectEntries [] roots).map (fun v => (count_file_stats v.content).1.lines)).sum ∧
      (walk_project roots).tokens =
        ((collectEntries [] roots).map (fun v => (count_file_stats v.content).1.tokens)).sum ∧
      (walk_project roots).letters =
        ((collectEntries [] roots).map (fun v => (count_file_stats v.content).1.letters)).sum ∧
      (walk_project roots).functions =
        ((collectEntries [] roots).map (fun v => (count_file_stats v.content).1.functions)).sum ∧
      (walk_project roots).classes =
        ((collectEntries [] roots).map (fun v => (count_file_stats v.content).1.classes)).sum ∧
      (walk_project roots).components =
        ((collectEntries [] roots).map (fun v => (count_file_stats v.content).1.components)).sum := by
  intro roots
  obtain ⟨h1, h2, h3, h4, h5, h6, h7⟩ :=
    foldl_counterUpdate_fields (collectEntries [] roots) initAgg
  unfold walk_project
  refine ⟨rfl, ?_, ?_, ?_, ?_, ?_, ?_⟩
  · simpa [initAgg] using h2
  · simpa [initAgg] using h3
  · simpa [initAgg] using h4
  · simpa [initAgg] using h5
  · simpa [initAgg] using h6
  · simpa [initAgg] using h7

/-- Every file the walk visits lies only below non-excluded directories
(relative to the ancestors the walk entered with). -/
theorem mem_collectEntries_dirs :
    ∀ (es : List FSEntry) (anc : List String) (v : VisitedFile),
      v ∈ collectEntries anc es →
      ∀ d ∈ v.dirs, d ∈ anc ∨ EXCLUDE_DIRS.contains d = false
  | [], anc, v => by simp [collectEntries]
  | .file n c :: es, anc, v => by
    intro hv d hd
    simp only [collectEntries] at hv
    rcases List.mem_append.1 hv with h | h
    · have hva : v = ⟨anc, n, c⟩ := by
        by_cases hc : is_code_file n = true
        · simpa [hc] using h
        · simp [hc] at h
      exact Or.inl (by rw [hva] at hd; exact hd)
    · exact mem_collectEntries_dirs es anc v h d hd
  | .dir dn sub :: es, anc, v => by
    intro hv d hd
    simp only [collectEntries] at hv
    by_cases hex : EXCLUDE_DIRS.contains dn = true
    · rw [if_pos hex, List.nil_append] at hv
      exact mem_collectEntries_dirs es anc v hv d hd
    · rw [if_neg hex] at hv
      rcases List.mem_append.1 hv with h | h
      · have := mem_collectEntries_dirs sub (anc ++ [dn]) v h d hd
        rcases this with hin | hok
        · rcases List.mem_append.1 hin with h' | h'
          · exact Or.inl h'
          · have hddn : d = dn := by simpa using h'
            subst hddn
            exact Or.inr (Bool.not_eq_true _ ▸ hex)
        · exact Or.inr hok
      · exact mem_collectEntries_dirs es anc v h d hd
termination_by es => sizeOf es
decreasing_by
  all_goals simp
  all_goals omega

/-- The walk distributes over appended entry lists. -/
theorem collectEntries_append :
    ∀ (anc : List String) (l1 l2 : List FSEntry),
      collectEntries anc (l1 ++ l2)
        = collectEntries anc l1 ++ collectEntries anc l2
  | anc, [], l2 => by simp [collectEntries]
  | anc, .file n c :: l1, l2 => by
    simp only [List.cons_append, collectEntries,
      collectEntries_append anc l1 l2, List.append_assoc]
  | anc, .dir d sub :: l1, l2 => by
    simp only [List.cons_append, collectEntries,
      collectEntries_append anc l1 l2, List.append_assoc]

/-- Claim C5: an excluded directory is pruned before descent — the walk
of an entry list containing it equals the walk without it, no visited
file lies below an excluded directory name, and the aggregate of a tree
with an excluded directory equals the aggregate without it. -/
theorem excluded_dirs_never_visited :
    (∀ (anc : List String) (d : String) (sub es : List FSEntry),
        EXCLUDE_DIRS.contains d = true →
        collectEntries anc (.dir d sub :: es) = collectEntries anc es) ∧
    (∀ (roots : List FSEntry) (v : VisitedFile),
        v ∈ collectEntries [] roots →
        ∀ d ∈ v.dirs, EXCLUDE_DIRS.contains d = false) ∧
    (∀ (pre post : List FSEntry) (d : String) (sub : List FSEntry),
        EXCLUDE_DIRS.contains d = true →
        walk_project (pre ++ .dir d sub :: post) = walk_project (pre ++ post)) := by
  refine ⟨?_, ?_, ?_⟩
  · intro anc d sub es h
    simp only [collectEntries]
    rw [if_pos h, List.nil_append]
  · intro roots v hv d hd
    rcases mem_collectEntries_dirs roots [] v hv d hd with h | h
    · simp at h
    · exact h
  · intro pre post d sub h
    have hc : collectEntries [] (pre ++ .dir d sub :: post)
        = collectEntries [] (pre ++ post) := by
      rw [collectEntries_append, collectEntries_append]
      congr 1
      simp only [collectEntries]
      rw [if_pos h, List.nil_append]
    unfold walk_project
    rw [hc]

/-- Witness for C5: a `node_modules/big.tsx` tree aggregates exactly like
the empty tree. -/
theorem excluded_dirs_never_visited_witness :
    walk_project
        [FSEntry.dir "node_modules" [FSEntry.file "big.tsx" (FileContent.readable ["x"] false)]]
      = walk_project [] :=
  excluded_dirs_never_visited.2.2 [] []
    "node_modules" [FSEntry.file "big.tsx" (FileContent.readable ["x"] false)] (by decide)

/-- Claim C4: the largest-files finder returns the first `n` entries of
the collected list stably sorted by size descending: the result is sorted
descending, entries of any fixed size keep their encounter order, fewer
than `n` qualifying files are all returned, and the `{10, 500, 500, 3}`
example returns the two 500-byte entries in order. -/
theorem largest_files_top_n :
    ∀ (l : List (String × Nat)) (n s : Nat),
      get_largest_files l n = (sortBySizeDesc l).take n ∧
      (get_largest_files l n).Pairwise (fun a b => b.2 ≤ a.2) ∧
      (sortBySizeDesc l).filter (fun x => x.2 == s) = l.filter (fun x => x.2 == s) ∧
      (l.length ≤ n → (get_largest_files l n).Perm l) ∧
      get_largest_files [("a", 10), ("b", 500), ("c", 500), ("d", 3)] 2 =
        [("b", 500), ("c", 500)] := by
  intro l n s
  have trans : ∀ (a b c : String × Nat),
      (fun a b : String × Nat => decide (b.2 ≤ a.2)) a b →
      (fun a b : String × Nat => decide (b.2 ≤ a.2)) b c →
      (fun a b : String × Nat => decide (b.2 ≤ a.2)) a c := by
    intro a b c hab hbc
    simp only [decide_eq_true_eq] at *
    omega
  have total : ∀ (a b : String × Nat),
      ((fun a b : String × Nat => decide (b.2 ≤ a.2)) a b
        || (fun a b : String × Nat => decide (b.2 ≤ a.2)) b a) := by
    intro a b
    simpa using Nat.le_total b.2 a.2
  refine ⟨rfl, ?_, ?_, ?_, ?_⟩
  · have hs := List.sorted_mergeSort trans total l
    have hs' : (sortBySizeDesc l).Pairwise (fun a b : String × Nat => b.2 ≤ a.2) :=
      hs.imp (fun h => by simpa using h)
    exact hs'.sublist (List.take_sublist n _)
  · have hpair : (l.filter (fun x => x.2 == s)).Pairwise
        (fun a b : String × Nat => ((fun a b : String × Nat => decide (b.2 ≤ a.2)) a b : Bool)) := by
      apply List.pairwise_of_forall_mem_list
      intro a ha b hb
      have ha' := (List.mem_filter.1 ha).2
      have hb' := (List.mem_filter.1 hb).2
      simp only [beq_iff_eq] at ha' hb'
      simp [ha', hb']
    have hsub : List.Sublist (l.filter (fun x => x.2 == s)) (sortBySizeDesc l) :=
      List.sublist_mergeSort trans total hpair (List.filter_sublist l)
    have heq : (l.filter (fun x => x.2 == s)).filter (fun x => x.2 == s)
        = l.filter (fun x => x.2 == s) :=
      List.filter_eq_self.mpr (fun a ha => (List.mem_filter.1 ha).2)
    have hsub2 : List.Sublist (l.filter (fun x => x.2 == s))
        ((sortBySizeDesc l).filter (fun x => x.2 == s)) := by
      have hf := hsub.filter (fun x => x.2 == s)
      rwa [heq] at hf
    have hlen : ((sortBySizeDesc l).filter (fun x => x.2 == s)).length
        = (l.filter (fun x => x.2 == s)).length :=
      ((List.mergeSort_perm l _).filter _).length_eq
    exact (hsub2.eq_of_length hlen.symm).symm
  · intro h
    have hlen : (sortBySizeDesc l).length = l.length :=
      (List.mergeSort_perm l _).length_eq
    unfold get_largest_files
    rw [List.take_of_length_le (by omega)]
    exact List.mergeSort_perm l _
  · show (sortBySizeDesc [("a", 10), ("b", 500), ("c", 500), ("d", 3)]).take 2 = _
    have hs : sortBySizeDesc [("a", 10), ("b", 500), ("c", 500), ("d", 3)]
        = [("b", 500), ("c", 500), ("a", 10), ("d", 3)] := by
      simp only [sortBySizeDesc]
      rw [List.mergeSort.eq_def _
        ((fun a b => decide (b.2 ≤ a.2)) : (String × Nat) → (String × Nat) → Bool)]
      simp only [List.splitInTwo, List.splitAt, List.splitAt.go, List.reverse_cons,
        List.reverse_nil, List.nil_append, List.cons_append]
      rw [List.mergeSort.eq_def [("a", (10 : Nat)), ("b", 500)]
            ((fun a b => decide (b.2 ≤ a.2)) : (String × Nat) → (String × Nat) → Bool),
          List.mergeSort.eq_def [("c", (500 : Nat)), ("d", 3)]
            ((fun a b => decide (b.2 ≤ a.2)) : (String × Nat) → (String × Nat) → Bool)]
      simp only [List.splitInTwo, List.splitAt, List.splitAt.go, List.reverse_cons,
        List.reverse_nil, List.nil_append, List.cons_append]
      simp [List.mergeSort_singleton, List.merge]
    rw [hs]
    rfl

/-- Witness for C4: with a single collected file and `n = 5`, everything
is returned. -/
theorem largest_files_top_n_witness :
    (get_largest_files [("a", (10 : Nat))] 5).Perm [("a", 10)] :=
  (largest_files_top_n [("a", 10)] 5 0).2.2.2.1 (by decide)

end Realmwright
